import Mathlib

/-!
Verification of the PL/0 front-end diagnostic tool (lexer, structural checker,
position index, diagnostics recorder) against its natural-language specification.

The sources contain two iterations of the design:
* `src/lex.rs` — a `Lexer` over a shared character buffer producing payload-carrying
  `Token`s via `consume_token`, with an internal `errors : Vec<OffsetError>` sink;
* `src/pre_grammar.rs` — a `TokenStream` driven structural checker (`var_block`,
  `def_line`, `program_block`, `code`) over tag-style tokens, recording diagnostics
  in an `ErrorRecorder` (from `src/error.rs`) whose `hard` method both records an
  error and returns `Err`.

Modelling conventions:
* machine integers are `Nat`; `i32` parsing is modelled by an explicit bound check;
  `usize::MAX` is the explicit constant `2^64 - 1`;
* Rust character classes are modelled by Lean's ASCII classifiers (`Char.isAlpha`,
  `Char.isDigit`, `Char.isWhitespace`).  Rust's `char::is_numeric` and
  `char::is_whitespace` additionally accept some non-ASCII Unicode characters,
  and `str::to_lowercase` folds non-ASCII letters; on the ASCII inputs all the
  claims are about, the two sides agree, and the lexer's own identifier munching
  is restricted to ASCII by `is_ascii_alphabetic`/`is_ascii_alphanumeric`;
* the `while let` loop of `consume_token` is split into a single loop iteration
  (`Lex.step`) plus a fuel-driven iterator (`Lex.consumeTokenF`); one loop
  iteration either finishes or advances the cursor by at least one character, so
  the fuel `input.length - pos + 1` used by `Lex.consumeToken` is never exhausted.
  The inner comment-skipping loop `while self.peek_char() != Some('\n')` advances
  the cursor up to the next newline; when no newline follows, `consume_char` at end
  of input is a no-op and the Rust loop never terminates — this is modelled by the
  explicit outcome `LexResult.diverge`.
-/

/-- Offset-tagged diagnostic message.  Both `src/line_pos.rs` and `src/error.rs`
declare this same struct (`OffsetError { offset: usize, msg: String }`). -/
structure OffsetError where
  offset : Nat
  msg : String
deriving Repr, DecidableEq

/-- Models Rust `str::to_lowercase` via per-character ASCII folding.  On the
ASCII strings the lexer and checker apply it to, this agrees with Rust's
Unicode folding (`Char.toLower` lowers exactly `'A'..'Z'`); it is used instead
of `String.toLower` because the latter is not kernel-reducible. -/
def toLowercase (s : String) : String := String.mk (s.data.map Char.toLower)

namespace Lex

/-- `Token` from `src/lex.rs`: keyword/operator tags plus the payload-carrying
`Ident(String)` and `Int(i32)` variants. -/
inductive Token where
  | Var | If | Then | Else | While | Do | Begin | End
  | And | Or
  | Integer | Longint | Bool | Real
  | Add | Sub | Mul | Div | Assign | Lt | Gt | Ne | Ge | Le | Eq
  | Colon | LParen | RParen
  | Comma | SemiColon
  | Ident (s : String)
  | Int (n : Int)
deriving Repr, DecidableEq

/-- `OffsetToken { offset: usize, token: Token }` from `src/lex.rs`. -/
structure OffsetToken where
  offset : Nat
  token : Token
deriving Repr, DecidableEq

/-- `Lexer { input: Rc<Vec<char>>, pos: usize, errors: Vec<OffsetError> }`
from `src/lex.rs`. -/
structure Lexer where
  input : List Char
  pos : Nat
  errors : List OffsetError
deriving Repr, DecidableEq

/-- `Lexer::new`: collect the characters of the input, cursor at 0, no errors. -/
def Lexer.new (s : String) : Lexer := ⟨s.toList, 0, []⟩

/-- `Lexer::peek_char`: `self.input.get(self.pos).cloned()`. -/
def Lexer.peekChar (l : Lexer) : Option Char := l.input.get? l.pos

/-- `Lexer::push_error_pos`: append `{offset, msg}` to `self.errors`. -/
def Lexer.pushErrorPos (l : Lexer) (offset : Nat) (msg : String) : Lexer :=
  { l with errors := l.errors ++ [⟨offset, msg⟩] }

/-- `Lexer::push_error`: record at the current cursor position `self.pos`. -/
def Lexer.pushError (l : Lexer) (msg : String) : Lexer :=
  l.pushErrorPos l.pos msg

/-- The greedy character munch: the Rust pattern
`while self.peek_char().map_or(false, p) { out.push(self.consume_char().unwrap()) }`
starting at `pos` collects exactly the longest prefix of the remaining input
satisfying `p`. -/
def munchWhile (p : Char → Bool) (input : List Char) (pos : Nat) : List Char :=
  (input.drop pos).takeWhile p

/-- The keyword table of `consume_token` (the `match ident.to_lowercase().as_str()`
arms); `none` corresponds to the fall-through `_ => Token::Ident(ident)`. -/
def keywordOf (s : String) : Option Token :=
  if s = "var" then some .Var
  else if s = "integer" then some .Integer
  else if s = "longint" then some .Longint
  else if s = "bool" then some .Bool
  else if s = "real" then some .Real
  else if s = "if" then some .If
  else if s = "then" then some .Then
  else if s = "else" then some .Else
  else if s = "while" then some .While
  else if s = "do" then some .Do
  else if s = "begin" then some .Begin
  else if s = "end" then some .End
  else if s = "and" then some .And
  else if s = "or" then some .Or
  else none

/-- Numeric value of an ASCII digit string (most-significant digit first). -/
def digitsToNat (cs : List Char) : Nat :=
  cs.foldl (fun a c => a * 10 + (c.toNat - '0'.toNat)) 0

/-- `i32::MAX`. -/
def I32_MAX : Nat := 2147483647

/-- Models `num.parse::<i32>()` for the nonempty ASCII-digit strings the lexer
produces: success exactly when the value fits in a signed 32-bit integer
(the strings are unsigned, so only the upper bound matters). -/
def parseI32 (cs : List Char) : Option Int :=
  if digitsToNat cs ≤ I32_MAX then some (digitsToNat cs) else none

/-- Models Rust `char::is_numeric` restricted to ASCII (see the header note). -/
def rustIsNumeric (c : Char) : Bool := c.isDigit

/-- `num` followed by a letter check of `consume_token`:
`self.peek_char().map_or(false, |c| c.is_ascii_alphabetic())` after the digit run. -/
def afterNumAlpha (input : List Char) (pos : Nat) : Bool :=
  ((input.get? pos).map Char.isAlpha).getD false

/-- `num.starts_with('0') && num.len() > 1` of `consume_token`. -/
def leadingZeroBad (w : List Char) : Bool :=
  decide (w.head? = some '0') && decide (1 < w.length)

/-- Target position of the comment-skipping loop
`while self.peek_char() != Some('\n') { self.consume_char(); }`:
the index of the first `'\n'` at or after `i` (`none` when there is none,
in which case the Rust loop never terminates). -/
def findNlFrom : List Char → Nat → Option Nat
  | [], _ => none
  | c :: rest, i => if c = '\n' then some i else findNlFrom rest (i + 1)

/-- The comment-skip target for the full buffer, starting at `pos`. -/
def commentSkipTarget (input : List Char) (pos : Nat) : Option Nat :=
  findNlFrom (input.drop pos) pos

/-- Outcome of `consume_token`: a produced token with the post-state, end of
input (Rust `None`) with the post-state, divergence of the comment-skipping
loop, or fuel exhaustion of the model (never reached by `consumeToken`). -/
inductive LexResult where
  | tok (t : OffsetToken) (l : Lexer)
  | eof (l : Lexer)
  | diverge (l : Lexer)
  | fuelOut
deriving Repr, DecidableEq

/-- The token produced by a `consume_token` outcome, if any
(`.map(|t| t.token)` in `peek_token`). -/
def LexResult.tokenOf : LexResult → Option Token
  | .tok t _ => some t.token
  | _ => none

/-- One iteration of the outer `while let Some(c) = self.peek_char()` loop of
`Lexer::consume_token` (`src/lex.rs` lines 152-290): `.inl` is a `return`
(or inner divergence), `.inr` is a `continue` with the updated state. -/
def step (l : Lexer) : LexResult ⊕ Lexer :=
  match l.peekChar with
  | none => .inl (.eof l)
  | some c =>
    if c.isWhitespace then
      .inr { l with pos := l.pos + 1 }
    else
      let start := l.pos
      if c.isAlpha then
        let w := munchWhile Char.isAlphanum l.input l.pos
        let ws := String.mk w
        .inl (.tok ⟨start, (keywordOf (toLowercase ws)).getD (.Ident ws)⟩
          { l with pos := l.pos + w.length })
      else if rustIsNumeric c then
        let w := munchWhile rustIsNumeric l.input l.pos
        let l1 : Lexer := { l with pos := l.pos + w.length }
        let l2 := if afterNumAlpha l1.input l1.pos then
            l1.pushError "Unexpected character after number" else l1
        let l3 := if leadingZeroBad w then
            l2.pushErrorPos start "Number cannot start with 0" else l2
        match parseI32 w with
        | some n => .inl (.tok ⟨start, .Int n⟩ l3)
        | none => .inr (l3.pushErrorPos start "Invalid number or out of range")
      else if c = '+' then .inl (.tok ⟨start, .Add⟩ { l with pos := l.pos + 1 })
      else if c = '-' then .inl (.tok ⟨start, .Sub⟩ { l with pos := l.pos + 1 })
      else if c = '*' then .inl (.tok ⟨start, .Mul⟩ { l with pos := l.pos + 1 })
      else if c = '/' then
        -- NB the Rust code tests `self.peek_char() == Some('/')` *before*
        -- consuming the matched '/', so it re-reads that same '/': the test is
        -- always true here and the `Token::Div` arm is unreachable.
        if l.peekChar = some '/' then
          match commentSkipTarget l.input l.pos with
          | some j => .inr { l with pos := j }
          | none => .inl (.diverge { l with pos := l.input.length })
        else .inl (.tok ⟨start, .Div⟩ { l with pos := l.pos + 1 })
      else if c = ':' then
        let l1 : Lexer := { l with pos := l.pos + 1 }
        if l1.peekChar = some '=' then
          .inl (.tok ⟨start, .Assign⟩ { l1 with pos := l1.pos + 1 })
        else .inl (.tok ⟨start, .Colon⟩ l1)
      else if c = '<' then
        let l1 : Lexer := { l with pos := l.pos + 1 }
        if l1.peekChar = some '>' then
          .inl (.tok ⟨start, .Ne⟩ { l1 with pos := l1.pos + 1 })
        else if l1.peekChar = some '=' then
          .inl (.tok ⟨start, .Le⟩ { l1 with pos := l1.pos + 1 })
        else .inl (.tok ⟨start, .Lt⟩ l1)
      else if c = '>' then
        let l1 : Lexer := { l with pos := l.pos + 1 }
        if l1.peekChar = some '=' then
          .inl (.tok ⟨start, .Ge⟩ { l1 with pos := l1.pos + 1 })
        else .inl (.tok ⟨start, .Gt⟩ l1)
      else if c = '=' then
        let l1 : Lexer := { l with pos := l.pos + 1 }
        if l1.peekChar = some '=' then
          .inl (.tok ⟨start, .Eq⟩ { l1 with pos := l1.pos + 1 })
        else .inr (l1.pushError "Unexpected character after =")
      else if c = '(' then .inl (.tok ⟨start, .LParen⟩ { l with pos := l.pos + 1 })
      else if c = ')' then .inl (.tok ⟨start, .RParen⟩ { l with pos := l.pos + 1 })
      else if c = ',' then .inl (.tok ⟨start, .Comma⟩ { l with pos := l.pos + 1 })
      else if c = ';' then .inl (.tok ⟨start, .SemiColon⟩ { l with pos := l.pos + 1 })
      else
        .inr { (l.pushErrorPos start ("Unexpected character `" ++ String.mk [c] ++ "`"))
          with pos := l.pos + 1 }

/-- Fuel-driven iteration of `step`; `consumeToken` supplies enough fuel below. -/
def consumeTokenF : Nat → Lexer → LexResult
  | 0, _ => .fuelOut
  | fuel + 1, l =>
    match step l with
    | .inl r => r
    | .inr l' => consumeTokenF fuel l'

/-- `Lexer::consume_token`.  Each loop iteration that continues advances the
cursor by at least one position (proved in `step_progress`), so
`input.length - pos + 1` units of fuel always suffice. -/
def consumeToken (l : Lexer) : LexResult :=
  consumeTokenF (l.input.length - l.pos + 1) l

/-- `Lexer::peek_token`: run `consume_token` on a throwaway snapshot sharing the
buffer and cursor but with a fresh, empty error sink, and keep only the token. -/
def peekToken (l : Lexer) : Option Token :=
  (consumeToken { input := l.input, pos := l.pos, errors := [] }).tokenOf

end Lex

namespace PG

/-- Modelled from the spec: the tag-only token discriminant `TokenEnum` used by
`src/pre_grammar.rs` (its lexer iteration is not among the sources; only the
variants the checker matches on, plus the tags appearing in the claims'
programs, are needed — spec §3 lists the full tag set). -/
inductive TokenEnum where
  | Var | Begin | End | Colon | Comma | SemiColon
  | Identifier | Integer | Longint | Bool | Real
deriving Repr, DecidableEq

/-- The derived `Debug` rendering of a `TokenEnum` variant, as interpolated by
`format!("Expected {:?}, found {:?}", ..)`. -/
def TokenEnum.debugStr : TokenEnum → String
  | .Var => "Var" | .Begin => "Begin" | .End => "End" | .Colon => "Colon"
  | .Comma => "Comma" | .SemiColon => "SemiColon" | .Identifier => "Identifier"
  | .Integer => "Integer" | .Longint => "Longint" | .Bool => "Bool" | .Real => "Real"

/-- Modelled from the spec: the token record consumed by `src/pre_grammar.rs`
(fields read there: `offset`, `token`, `content`; spec §3's `PositionedToken`
with the tag-plus-content representation noted in spec §9). -/
structure Token where
  offset : Nat
  token : TokenEnum
  content : String
deriving Repr, DecidableEq

/-- `TypeEnum` from `src/pre_grammar.rs`. -/
inductive TypeEnum where
  | Integer | Longint | Bool | Real
deriving Repr, DecidableEq

/-- `TryFrom<TokenEnum> for TypeEnum`, post-composed with `.ok()` as at its only
use site in `def_line` (`Err` becomes `none`). -/
def TypeEnum.tryFrom : TokenEnum → Option TypeEnum
  | .Integer => some .Integer
  | .Longint => some .Longint
  | .Bool => some .Bool
  | .Real => some .Real
  | _ => none

/-- `ErrorRecorder { errors, warnings }` from `src/error.rs`. -/
structure ErrorRecorder where
  errors : List OffsetError
  warnings : List OffsetError
deriving Repr, DecidableEq

/-- `ErrorRecorder::new`. -/
def ErrorRecorder.new : ErrorRecorder := ⟨[], []⟩

/-- `ErrorRecorder::error`: append to the error list. -/
def ErrorRecorder.error (r : ErrorRecorder) (offset : Nat) (msg : String) : ErrorRecorder :=
  { r with errors := r.errors ++ [⟨offset, msg⟩] }

/-- `ErrorRecorder::warning`: append to the warning list. -/
def ErrorRecorder.warning (r : ErrorRecorder) (offset : Nat) (msg : String) : ErrorRecorder :=
  { r with warnings := r.warnings ++ [⟨offset, msg⟩] }

/-- `ErrorRecorder::no_error`. -/
def ErrorRecorder.noError (r : ErrorRecorder) : Bool := r.errors.isEmpty

/-- `ErrorRecorder::hard` records the error and returns `Err(anyhow!(msg))`;
call sites below pair `r.error off msg` with an `Except.error msg` result. -/
def Result (α : Type) : Type := Except String α

/-- `usize::MAX`, the sentinel `peek_pos` returns at end of stream. -/
def USIZE_MAX : Nat := 18446744073709551615

/-- `TokenStream { tokens, index }` from `src/pre_grammar.rs`. -/
structure TokenStream where
  tokens : List Token
  index : Nat
deriving Repr, DecidableEq

/-- `TokenStream::peek`: the tag of the token at the current index. -/
def TokenStream.peek (ts : TokenStream) : Option TokenEnum :=
  (ts.tokens.get? ts.index).map (·.token)

/-- `TokenStream::peek_pos`: offset of the current token, or `usize::MAX`. -/
def TokenStream.peekPos (ts : TokenStream) : Nat :=
  ((ts.tokens.get? ts.index).map (·.offset)).getD USIZE_MAX

/-- `TokenStream::next`: return the current token (if any) and advance. -/
def TokenStream.next (ts : TokenStream) : Option Token × TokenStream :=
  match ts.tokens.get? ts.index with
  | some t => (some t, { ts with index := ts.index + 1 })
  | none => (none, ts)

/-- `TokenStream::expect` (`src/pre_grammar.rs` lines 52-59): consume the next
token; mismatch and end-of-stream are hard errors via `ErrorRecorder::hard`. -/
def expect (ts : TokenStream) (tk : TokenEnum) (r : ErrorRecorder) :
    Except String Token × TokenStream × ErrorRecorder :=
  let pos := ts.peekPos
  match ts.next with
  | (some t, ts') =>
    if t.token = tk then (.ok t, ts', r)
    else
      let msg := "Expected " ++ tk.debugStr ++ ", found " ++ t.token.debugStr
      (.error msg, ts', r.error pos msg)
  | (none, ts') =>
    let msg := "Expected " ++ tk.debugStr ++ ", found EOF"
    (.error msg, ts', r.error pos msg)

/-- `TokenStream::identifier`: expect an `Identifier` token and return its
content folded to lowercase together with its offset. -/
def identifier (ts : TokenStream) (r : ErrorRecorder) :
    Except String (String × Nat) × TokenStream × ErrorRecorder :=
  match expect ts .Identifier r with
  | (.ok t, ts', r') => (.ok (toLowercase t.content, t.offset), ts', r')
  | (.error e, ts', r') => (.error e, ts', r')

/-- The `loop` of `TokenStream::identifier_list`, with fuel (each iteration that
recurses consumes at least one token, so `tokens.length - index + 1` suffices;
`none` is the out-of-fuel marker, unreachable from `identifierList`). -/
def identifierListF : Nat → TokenStream → ErrorRecorder → List (String × Nat) →
    Option (Except String (List (String × Nat)) × TokenStream × ErrorRecorder)
  | 0, _, _, _ => none
  | fuel + 1, ts, r, acc =>
    match ts.peek with
    | some .Colon => some (.ok acc, ts, r)
    | some .Comma =>
      let ts' := ts.next.2
      match identifier ts' r with
      | (.ok idp, ts'', r'') => identifierListF fuel ts'' r'' (acc ++ [idp])
      | (.error e, ts'', r'') => some (.error e, ts'', r'')
    | some .Identifier =>
      let r' := r.error ts.peekPos "Missing comma"
      match identifier ts r' with
      | (.ok idp, ts'', r'') => identifierListF fuel ts'' r'' (acc ++ [idp])
      | (.error e, ts'', r'') => some (.error e, ts'', r'')
    | _ =>
      let msg := "Expected comma or colon"
      some (.error msg, ts, r.error ts.peekPos msg)

/-- `TokenStream::identifier_list` (`src/pre_grammar.rs` lines 68-87). -/
def identifierList (ts : TokenStream) (r : ErrorRecorder) :
    Option (Except String (List (String × Nat)) × TokenStream × ErrorRecorder) :=
  match identifier ts r with
  | (.ok idp, ts', r') => identifierListF (ts'.tokens.length - ts'.index + 1) ts' r' [idp]
  | (.error e, ts', r') => some (.error e, ts', r')

/-- The declared-identifier map: models `BTreeMap<String, TypeEnum>` as an
association list kept sorted by key (`BTreeMap` iterates in key order; the
checker only uses `contains_key` and `insert`). -/
abbrev VarsMap := List (String × TypeEnum)

/-- `BTreeMap::contains_key`. -/
def containsKey (m : VarsMap) (k : String) : Bool :=
  m.any (fun p => p.1 = k)

/-- `BTreeMap::insert` (key-ordered insertion; replaces an equal key). -/
def mapInsert (m : VarsMap) (k : String) (v : TypeEnum) : VarsMap :=
  match m with
  | [] => [(k, v)]
  | (k', v') :: rest =>
    if k < k' then (k, v) :: (k', v') :: rest
    else if k = k' then (k, v) :: rest
    else (k', v') :: mapInsert rest k v

/-- The `for (identifier, offset) in identifiers` loop at the end of `def_line`:
an already-present identifier records "Duplicate identifier: _" at its offset
and the map keeps the earlier binding; otherwise the identifier is inserted
with this line's type. -/
def insertVars : List (String × Nat) → TypeEnum → VarsMap → ErrorRecorder →
    VarsMap × ErrorRecorder
  | [], _, vars, r => (vars, r)
  | (id, off) :: rest, ty, vars, r =>
    if containsKey vars id then
      insertVars rest ty vars (r.error off ("Duplicate identifier: " ++ id))
    else
      insertVars rest ty (mapInsert vars id ty) r

/-- `TokenStream::def_line` (`src/pre_grammar.rs` lines 89-119): parse
`i0, i1, ..: Type;`, then fold the identifiers into the map. -/
def defLine (ts : TokenStream) (vars : VarsMap) (r : ErrorRecorder) :
    Option (Except String Unit × TokenStream × VarsMap × ErrorRecorder) :=
  match identifierList ts r with
  | none => none
  | some (.error e, ts1, r1) => some (.error e, ts1, vars, r1)
  | some (.ok ids, ts1, r1) =>
    match expect ts1 .Colon r1 with
    | (.error e, ts2, r2) => some (.error e, ts2, vars, r2)
    | (.ok _, ts2, r2) =>
      let pos := ts2.peekPos
      let (ot, ts3) := ts2.next
      match ot.bind (fun t => TypeEnum.tryFrom t.token) with
      | none =>
        some (.error "Expected type", ts3, vars, r2.error pos "Expected type")
      | some ty =>
        let (ts4, r4) :=
          match ts3.peek with
          | some .SemiColon => (ts3.next.2, r2)
          | _ => (ts3, r2.error ts3.peekPos "Missing semicolon")
        let (vars', r5) := insertVars ids ty vars r4
        some (.ok (), ts4, vars', r5)

/-- The `while self.peek().map_or(false, |t| t != &Begin)` loop of `var_block`,
with fuel (each successful `def_line` consumes at least one token). -/
def varLoopF : Nat → TokenStream → VarsMap → ErrorRecorder →
    Option (Except String VarsMap × TokenStream × ErrorRecorder)
  | 0, _, _, _ => none
  | fuel + 1, ts, vars, r =>
    match ts.peek with
    | none => some (.ok vars, ts, r)
    | some .Begin => some (.ok vars, ts, r)
    | some _ =>
      match defLine ts vars r with
      | none => none
      | some (.error e, ts', _, r') => some (.error e, ts', r')
      | some (.ok _, ts', vars', r') => varLoopF fuel ts' vars' r'

/-- `TokenStream::var_block` (`src/pre_grammar.rs` lines 121-138): `var` leads
into the declaration-line loop; a leading `begin` makes the phase a no-op;
anything else is the hard error "Expected var". -/
def varBlock (ts : TokenStream) (r : ErrorRecorder) :
    Option (Except String VarsMap × TokenStream × ErrorRecorder) :=
  match ts.peek with
  | some .Var =>
    let ts' := ts.next.2
    varLoopF (ts'.tokens.length - ts'.index + 1) ts' [] r
  | some .Begin => some (.ok [], ts, r)
  | _ => some (.error "Expected var", ts, r.error ts.peekPos "Expected var")

/-- The `while let Some(token) = self.peek()` loop of `program_block`: every
token is consumed; an `Identifier` absent from the declared map records
"Undeclared identifier: _" (lowercased) at the token's offset. -/
def programLoopF : Nat → TokenStream → VarsMap → ErrorRecorder →
    Option (TokenStream × ErrorRecorder)
  | 0, _, _, _ => none
  | fuel + 1, ts, vars, r =>
    match ts.peek with
    | none => some (ts, r)
    | some tk =>
      if tk = .Identifier then
        match ts.next with
        | (some t, ts') =>
          let s := toLowercase t.content
          if containsKey vars s then programLoopF fuel ts' vars r
          else programLoopF fuel ts' vars (r.error t.offset ("Undeclared identifier: " ++ s))
        | (none, ts') => some (ts', r) -- unreachable: `peek` is `some` (Rust unwraps)
      else programLoopF fuel ts.next.2 vars r

/-- `TokenStream::program_block` (`src/pre_grammar.rs` lines 141-164): a missing
leading `begin` is the hard error "Expected begin"; otherwise the loop above
consumes every remaining token (the leading `begin` included). -/
def programBlock (ts : TokenStream) (vars : VarsMap) (r : ErrorRecorder) :
    Option (Except String Unit × TokenStream × ErrorRecorder) :=
  if ts.peek = some .Begin then
    match programLoopF (ts.tokens.length - ts.index + 1) ts vars r with
    | none => none
    | some (ts', r') => some (.ok (), ts', r')
  else some (.error "Expected begin", ts, r.error ts.peekPos "Expected begin")

/-- `TokenStream::code`: `var_block` then `program_block`; the `?` on
`var_block` propagates a hard error without running the body phase. -/
def code (ts : TokenStream) (r : ErrorRecorder) :
    Option (Except String Unit × TokenStream × ErrorRecorder) :=
  match varBlock ts r with
  | none => none
  | some (.error e, ts', r') => some (.error e, ts', r')
  | some (.ok vars, ts', r') => programBlock ts' vars r'

end PG

namespace LP

/-- `LinePos { content, start_offset }` from `src/error.rs` (the same struct is
declared in `src/line_pos.rs`; claim C9 cites the `src/error.rs` copy, whose
`line_col` carries the end-of-text clamp). -/
structure LinePos where
  content : List Char
  start_offset : List Nat
deriving Repr, DecidableEq

/-- The `for (i, c) in content.iter().enumerate()` loop of `LinePos::new`:
for every newline at absolute index `i` it pushes `i + 1`; the parameter is the
absolute index of the first character of the list. -/
def newlineIdxs : List Char → Nat → List Nat
  | [], _ => []
  | c :: rest, i =>
    if c = '\n' then (i + 1) :: newlineIdxs rest (i + 1)
    else newlineIdxs rest (i + 1)

/-- `LinePos::new`: append a trailing newline if absent, then record `0`
followed by the offset just past every newline. -/
def LinePos.new (content : List Char) : LinePos :=
  let content' := if content.getLast? = some '\n' then content else content ++ ['\n']
  ⟨content', 0 :: newlineIdxs content' 0⟩

/-- Insertion rank of `x` in a list: the number of elements below `x`.  For the
strictly sorted `start_offset` this is both the `Ok` index (when `x` occurs)
and the `Err` insertion point of Rust `slice::binary_search`. -/
def countLt (l : List Nat) (x : Nat) : Nat :=
  (l.filter (fun s => decide (s < x))).length

/-- `LinePos::line_col` from `src/error.rs` (lines 27-38): clamp offsets past
the end of the content to `(start_offset.len(), 1)`; otherwise
`binary_search(&offset).map(|x| x + 1).unwrap_or_else(|x| x)` picks the line
and the column is the distance to that line's start plus one.  The binary
search is modelled through `countLt` as justified in its doc comment. -/
def LinePos.lineCol (lp : LinePos) (offset : Nat) : Nat × Nat :=
  if offset > lp.content.length then (lp.start_offset.length, 1)
  else
    let r := countLt lp.start_offset offset
    let line := if offset ∈ lp.start_offset then r + 1 else r
    (line, offset - lp.start_offset.getD (line - 1) 0 + 1)

end LP

namespace Lex

/-- Prepend previously recorded diagnostics to the state inside an outcome:
running `consume_token` from a state whose sink already holds `E` yields the
same outcome as from an empty sink, with `E` in front (errors are only ever
appended). -/
def LexResult.addErrs (E : List OffsetError) : LexResult → LexResult
  | .tok t l => .tok t { l with errors := E ++ l.errors }
  | .eof l => .eof { l with errors := E ++ l.errors }
  | .diverge l => .diverge { l with errors := E ++ l.errors }
  | .fuelOut => .fuelOut

theorem isDigit_not_alpha {c : Char} (h : c.isDigit = true) : c.isAlpha = false := by
  simp [Char.isDigit, Char.isAlpha, Char.isUpper, Char.isLower, UInt32.le_def,
    BitVec.le_def] at h ⊢
  omega

theorem isDigit_not_ws {c : Char} (h : c.isDigit = true) : c.isWhitespace = false := by
  rcases hws : c.isWhitespace with _ | _
  · rfl
  · simp [Char.isWhitespace] at hws
    rcases hws with ((h' | h') | h') | h' <;> subst h' <;> exact absurd h (by decide)

theorem isAlpha_not_ws {c : Char} (h : c.isAlpha = true) : c.isWhitespace = false := by
  rcases hws : c.isWhitespace with _ | _
  · rfl
  · simp [Char.isWhitespace] at hws
    rcases hws with ((h' | h') | h') | h' <;> subst h' <;> exact absurd h (by decide)

@[simp] theorem pushErrorPos_input (l : Lexer) (o : Nat) (m : String) :
    (l.pushErrorPos o m).input = l.input := rfl

@[simp] theorem pushErrorPos_pos (l : Lexer) (o : Nat) (m : String) :
    (l.pushErrorPos o m).pos = l.pos := rfl

@[simp] theorem pushErrorPos_errors (l : Lexer) (o : Nat) (m : String) :
    (l.pushErrorPos o m).errors = l.errors ++ [⟨o, m⟩] := rfl

end Lex

namespace Lex

theorem munchWhile_length_pos {p : Char → Bool} {input : List Char} {pos : Nat} {c : Char}
    (h : input.get? pos = some c) (hp : p c = true) :
    0 < (munchWhile p input pos).length := by
  unfold munchWhile
  rw [List.get?_eq_getElem?, ← List.head?_drop] at h
  rcases hd : input.drop pos with _ | ⟨a, rest⟩ <;> rw [hd] at h
  · simp at h
  · have ha : a = c := by simpa using h
    subst ha
    simp [List.takeWhile_cons, hp]

theorem findNlFrom_le {l : List Char} {i j : Nat} (h : findNlFrom l i = some j) : i ≤ j := by
  induction l generalizing i with
  | nil => simp [findNlFrom] at h
  | cons c rest ih =>
    rw [findNlFrom] at h
    by_cases hc : c = '\n'
    · simp [hc] at h
      omega
    · simp [hc] at h
      have := ih h
      omega

theorem commentSkipTarget_lt {input : List Char} {pos j : Nat} {c : Char}
    (h : input.get? pos = some c) (hc : c ≠ '\n')
    (ht : commentSkipTarget input pos = some j) : pos < j := by
  unfold commentSkipTarget at ht
  rw [List.get?_eq_getElem?, ← List.head?_drop] at h
  rcases hd : input.drop pos with _ | ⟨a, rest⟩ <;> rw [hd] at h ht
  · simp [findNlFrom] at ht
  · have ha : a = c := by simpa using h
    subst ha
    rw [findNlFrom] at ht
    simp [hc] at ht
    have := findNlFrom_le ht
    omega

theorem step_progress {l l' : Lexer} (h : step l = .inr l') :
    l'.input = l.input ∧ l.pos < l'.pos ∧ l.pos < l.input.length := by
  unfold step at h
  rcases hpk : l.peekChar with _ | c
  · rw [hpk] at h
    simp at h
  · have hlt : l.pos < l.input.length := (List.get?_eq_some.mp hpk).1
    rw [hpk] at h
    simp only at h
    by_cases hws : c.isWhitespace
    · simp only [hws, if_true] at h
      simp only [Sum.inr.injEq] at h
      subst h
      exact ⟨rfl, by simp, hlt⟩
    · simp only [hws, Bool.false_eq_true, if_false] at h
      by_cases hal : c.isAlpha
      · simp [hal] at h
      · simp only [hal, Bool.false_eq_true, if_false] at h
        by_cases hnum : rustIsNumeric c
        · simp only [hnum, if_true] at h
          have hwlen : 0 < (munchWhile rustIsNumeric l.input l.pos).length :=
            munchWhile_length_pos hpk hnum
          split at h
          · simp at h
          · simp only [Sum.inr.injEq] at h
            subst h
            refine ⟨?_, ?_, hlt⟩ <;>
              by_cases h2 : afterNumAlpha l.input (l.pos + (munchWhile rustIsNumeric l.input l.pos).length) <;>
              by_cases h3 : leadingZeroBad (munchWhile rustIsNumeric l.input l.pos) <;>
              simp [h2, h3, Lexer.pushError] <;> omega
        · simp only [hnum, Bool.false_eq_true, if_false] at h
          by_cases h1 : c = '+'
          · simp [h1] at h
          · simp only [h1, if_false] at h
            by_cases hm : c = '-'
            · simp [hm] at h
            · simp only [hm, if_false] at h
              by_cases h3 : c = '*'
              · simp [h3] at h
              · simp only [h3, if_false] at h
                by_cases h4 : c = '/'
                · simp only [h4, if_true] at h
                  split at h
                  · next j heq =>
                    simp only [Sum.inr.injEq] at h
                    subst h
                    have hj : l.pos < j := by
                      apply commentSkipTarget_lt hpk _ heq
                      rw [h4]
                      decide
                    exact ⟨rfl, hj, hlt⟩
                  · simp at h
                · simp only [h4, if_false] at h
                  by_cases h6 : c = ':'
                  · simp only [h6, if_true] at h
                    split at h <;> simp at h
                  · simp only [h6, if_false] at h
                    by_cases h8 : c = '<'
                    · simp only [h8, if_true] at h
                      split at h
                      · simp at h
                      · split at h <;> simp at h
                    · simp only [h8, if_false] at h
                      by_cases h11 : c = '>'
                      · simp only [h11, if_true] at h
                        split at h <;> simp at h
                      · simp only [h11, if_false] at h
                        by_cases h13 : c = '='
                        · simp only [h13, if_true] at h
                          split at h
                          · simp at h
                          · simp only [Sum.inr.injEq] at h
                            subst h
                            refine ⟨rfl, ?_, hlt⟩
                            simp [Lexer.pushError]
                        · simp only [h13, if_false] at h
                          by_cases h15 : c = '('
                          · simp [h15] at h
                          · simp only [h15, if_false] at h
                            by_cases h16 : c = ')'
                            · simp [h16] at h
                            · simp only [h16, if_false] at h
                              by_cases h17 : c = ','
                              · simp [h17] at h
                              · simp only [h17, if_false] at h
                                by_cases h18 : c = ';'
                                · simp [h18] at h
                                · simp only [h18, if_false, Sum.inr.injEq] at h
                                  subst h
                                  exact ⟨rfl, by simp, hlt⟩

end Lex

namespace Lex

theorem consumeTokenF_congr : ∀ (f g : Nat) (l : Lexer),
    l.input.length - l.pos < f → l.input.length - l.pos < g →
    consumeTokenF f l = consumeTokenF g l := by
  intro f
  induction f with
  | zero => intro g l hf; omega
  | succ f ih =>
    intro g l hf hg
    rcases g with _ | g
    · omega
    · rw [consumeTokenF, consumeTokenF]
      rcases hs : step l with r | l'
      · rfl
      · obtain ⟨hi, hp1, hp2⟩ := step_progress hs
        have hlen : l'.input.length = l.input.length := by rw [hi]
        exact ih g l' (by omega) (by omega)

/-- Unfolding principle for `consume_token`: one loop iteration, with the
recursive continuation again `consume_token` (legitimate since continuing
iterations strictly advance the cursor). -/
theorem consumeToken_eq (l : Lexer) :
    consumeToken l = match step l with
      | .inl r => r
      | .inr l' => consumeToken l' := by
  rw [consumeToken, consumeTokenF]
  rcases hs : step l with r | l'
  · rfl
  · obtain ⟨hi, hp1, hp2⟩ := step_progress hs
    have hlen : l'.input.length = l.input.length := by rw [hi]
    exact consumeTokenF_congr _ _ l' (by omega) (by omega)

theorem addErrs_addErrs (E F : List OffsetError) (r : LexResult) :
    (r.addErrs F).addErrs E = r.addErrs (E ++ F) := by
  rcases r with _ | _ | _ | _ <;> simp [LexResult.addErrs]

theorem tokenOf_addErrs (E : List OffsetError) (r : LexResult) :
    (r.addErrs E).tokenOf = r.tokenOf := by
  rcases r with _ | _ | _ | _ <;> simp [LexResult.addErrs, LexResult.tokenOf]

/-- One loop iteration only appends to the error sink and is otherwise
independent of it: running from a sink holding `E` equals running from an
empty sink with `E` prefixed to whatever the iteration records. -/
theorem step_addErrs (input : List Char) (pos : Nat) (E : List OffsetError) :
    step ⟨input, pos, E⟩ = match step ⟨input, pos, []⟩ with
      | .inl r => .inl (r.addErrs E)
      | .inr l' => .inr ⟨l'.input, l'.pos, E ++ l'.errors⟩ := by
  have hpk : (⟨input, pos, E⟩ : Lexer).peekChar = (⟨input, pos, []⟩ : Lexer).peekChar := rfl
  unfold step
  rcases hc : (⟨input, pos, []⟩ : Lexer).peekChar with _ | c <;> rw [hpk, hc]
  · simp [LexResult.addErrs, Lexer.pushErrorPos, List.append_assoc]
  · simp only
    by_cases hws : c.isWhitespace
    · simp [hws, LexResult.addErrs, Lexer.pushErrorPos, List.append_assoc]
    · simp only [hws, Bool.false_eq_true, if_false]
      by_cases hal : c.isAlpha
      · simp [hal, LexResult.addErrs, Lexer.pushErrorPos, List.append_assoc]
      · simp only [hal, Bool.false_eq_true, if_false]
        by_cases hnum : rustIsNumeric c
        · simp only [hnum, if_true]
          rcases hp : parseI32 (munchWhile rustIsNumeric input pos) with _ | n <;>
            by_cases h2 : afterNumAlpha input (pos + (munchWhile rustIsNumeric input pos).length) <;>
            by_cases h3 : leadingZeroBad (munchWhile rustIsNumeric input pos) <;>
            simp [hp, h2, h3, Lexer.pushError, LexResult.addErrs, Lexer.pushErrorPos, List.append_assoc]
        · simp only [hnum, Bool.false_eq_true, if_false]
          by_cases h1 : c = '+'
          · simp [h1, LexResult.addErrs, Lexer.pushErrorPos, List.append_assoc]
          · simp only [h1, if_false]
            by_cases hm : c = '-'
            · simp [hm, LexResult.addErrs, Lexer.pushErrorPos, List.append_assoc]
            · simp only [hm, if_false]
              by_cases h3 : c = '*'
              · simp [h3, LexResult.addErrs, Lexer.pushErrorPos, List.append_assoc]
              · simp only [h3, if_false]
                by_cases h4 : c = '/'
                · simp only [h4, if_true]
                  have hpk2 : (⟨input, pos, E⟩ : Lexer).peekChar = (⟨input, pos, []⟩ : Lexer).peekChar := rfl
                  rcases ht : commentSkipTarget input pos with _ | j <;>
                    by_cases h5 : (⟨input, pos, []⟩ : Lexer).peekChar = some '/' <;>
                    simp [ht, h5, hpk2, LexResult.addErrs, Lexer.pushErrorPos, List.append_assoc]
                · simp only [h4, if_false]
                  by_cases h6 : c = ':'
                  · simp only [h6, if_true]
                    by_cases h7 : (⟨input, pos + 1, E⟩ : Lexer).peekChar = some '='
                    · have h7b : (⟨input, pos + 1, ([] : List OffsetError)⟩ : Lexer).peekChar = some '=' := h7
                      simp [h7, h7b, LexResult.addErrs, Lexer.pushErrorPos, List.append_assoc]
                    · have h7b : ¬((⟨input, pos + 1, ([] : List OffsetError)⟩ : Lexer).peekChar = some '=') := h7
                      simp [h7, h7b, LexResult.addErrs, Lexer.pushErrorPos, List.append_assoc]
                  · simp only [h6, if_false]
                    by_cases h8 : c = '<'
                    · simp only [h8, if_true]
                      by_cases h9 : (⟨input, pos + 1, E⟩ : Lexer).peekChar = some '>'
                      · have h9b : (⟨input, pos + 1, ([] : List OffsetError)⟩ : Lexer).peekChar = some '>' := h9
                        simp [h9, h9b, LexResult.addErrs, Lexer.pushErrorPos, List.append_assoc]
                      · have h9b : ¬((⟨input, pos + 1, ([] : List OffsetError)⟩ : Lexer).peekChar = some '>') := h9
                        by_cases h10 : (⟨input, pos + 1, E⟩ : Lexer).peekChar = some '='
                        · have h10b : (⟨input, pos + 1, ([] : List OffsetError)⟩ : Lexer).peekChar = some '=' := h10
                          simp [h9, h9b, h10, h10b, LexResult.addErrs, Lexer.pushErrorPos, List.append_assoc]
                        · have h10b : ¬((⟨input, pos + 1, ([] : List OffsetError)⟩ : Lexer).peekChar = some '=') := h10
                          simp [h9, h9b, h10, h10b, LexResult.addErrs, Lexer.pushErrorPos, List.append_assoc]
                    · simp only [h8, if_false]
                      by_cases h11 : c = '>'
                      · simp only [h11, if_true]
                        by_cases h12 : (⟨input, pos + 1, E⟩ : Lexer).peekChar = some '='
                        · have h12b : (⟨input, pos + 1, ([] : List OffsetError)⟩ : Lexer).peekChar = some '=' := h12
                          simp [h12, h12b, LexResult.addErrs, Lexer.pushErrorPos, List.append_assoc]
                        · have h12b : ¬((⟨input, pos + 1, ([] : List OffsetError)⟩ : Lexer).peekChar = some '=') := h12
                          simp [h12, h12b, LexResult.addErrs, Lexer.pushErrorPos, List.append_assoc]
                      · simp only [h11, if_false]
                        by_cases h13 : c = '='
                        · simp only [h13, if_true]
                          by_cases h14 : (⟨input, pos + 1, E⟩ : Lexer).peekChar = some '='
                          · have h14b : (⟨input, pos + 1, ([] : List OffsetError)⟩ : Lexer).peekChar = some '=' := h14
                            simp [h14, h14b, LexResult.addErrs, Lexer.pushErrorPos, List.append_assoc]
                          · have h14b : ¬((⟨input, pos + 1, ([] : List OffsetError)⟩ : Lexer).peekChar = some '=') := h14
                            simp [h14, h14b, Lexer.pushError, LexResult.addErrs, Lexer.pushErrorPos, List.append_assoc]
                        · simp only [h13, if_false]
                          by_cases h15 : c = '('
                          · simp [h15, LexResult.addErrs, Lexer.pushErrorPos, List.append_assoc]
                          · simp only [h15, if_false]
                            by_cases h16 : c = ')'
                            · simp [h16, LexResult.addErrs, Lexer.pushErrorPos, List.append_assoc]
                            · simp only [h16, if_false]
                              by_cases h17 : c = ','
                              · simp [h17, LexResult.addErrs, Lexer.pushErrorPos, List.append_assoc]
                              · simp only [h17, if_false]
                                by_cases h18 : c = ';'
                                · simp [h18, LexResult.addErrs, Lexer.pushErrorPos, List.append_assoc]
                                · simp [h18, LexResult.addErrs, Lexer.pushErrorPos, List.append_assoc]

theorem consumeTokenF_addErrs (f : Nat) : ∀ (input : List Char) (pos : Nat)
    (E : List OffsetError),
    consumeTokenF f ⟨input, pos, E⟩ = (consumeTokenF f ⟨input, pos, []⟩).addErrs E := by
  induction f with
  | zero => intro input pos E; rfl
  | succ f ih =>
    intro input pos E
    rw [consumeTokenF, consumeTokenF, step_addErrs]
    rcases hs : step ⟨input, pos, []⟩ with r | l'
    · rfl
    · simp only
      have h1 := ih l'.input l'.pos (E ++ l'.errors)
      have h2 := ih l'.input l'.pos l'.errors
      have hl' : (⟨l'.input, l'.pos, l'.errors⟩ : Lexer) = l' := rfl
      rw [h1, hl'] at *
      rw [h2]
      rw [addErrs_addErrs]

end Lex

namespace Lex

theorem step_alpha {l : Lexer} {c : Char} (hpk : l.peekChar = some c) (hal : c.isAlpha = true) :
    step l = .inl (.tok
      ⟨l.pos, (keywordOf (toLowercase (String.mk (munchWhile Char.isAlphanum l.input l.pos)))).getD
          (.Ident (String.mk (munchWhile Char.isAlphanum l.input l.pos)))⟩
      { l with pos := l.pos + (munchWhile Char.isAlphanum l.input l.pos).length }) := by
  unfold step
  rw [hpk]
  simp [isAlpha_not_ws hal, hal]

end Lex

/-- Claim C7: for every lexer state, `peek_token` returns exactly the token that
`consume_token` would produce from that state.  `peek_token` runs on a snapshot
`{ same buffer, same cursor, fresh empty error sink }` and returns only the
token, so in this pure embedding it can touch neither the authoritative cursor
nor the recorded diagnostics; the content of the theorem is that the produced
token is independent of the error sink (no diagnostic is double-recorded and
none is needed from the sink to lex). -/
theorem c7_peek_token_agrees_and_preserves_state (l : Lex.Lexer) :
    Lex.peekToken l = (Lex.consumeToken l).tokenOf := by
  rcases l with ⟨input, pos, E⟩
  unfold Lex.peekToken Lex.consumeToken
  simp only
  have h := Lex.consumeTokenF_addErrs (input.length - pos + 1) input pos E
  rw [h, Lex.tokenOf_addErrs]

/-- Claim C3 (code bug): on the input `"//abc"` — a `//` comment with no
terminating newline — the Rust comment-skipping loop
`while self.peek_char() != Some('\n') { self.consume_char(); }` reaches end of
input, where `consume_char` is a no-op, and therefore never terminates;
`consume_token` does not consume to end of input and return `None` as the
claim states.  The embedding records this infinite loop as the explicit
outcome `.diverge` (see `Lex.step`). -/
theorem c3_unterminated_comment_diverges :
    Lex.consumeToken (Lex.Lexer.new "//abc")
      = .diverge ⟨"//abc".toList, 5, []⟩ := by decide

/-- Claim C4, counterexample: lexing `"007"` records its single diagnostic in
the lexer's error list (`Lexer.errors`, the only diagnostic channel this lexer
has — rendered as `Error`, never through `ErrorRecorder::warning`), refuting
"records exactly one warning (not an error)".  The token is `Int 7`. -/
theorem c4_leading_zero_error_counterexample :
    Lex.consumeToken (Lex.Lexer.new "007")
      = .tok ⟨0, .Int 7⟩ ⟨"007".toList, 3, [⟨0, "Number cannot start with 0"⟩]⟩ := by decide

/-- Claim C4 as amended: a digit run with a leading `0` and length > 1 records
exactly one diagnostic — an entry "Number cannot start with 0" in the lexer's
error list, not a warning — and still yields an integer literal token whose
numeric value has the leading zeros stripped (`Int 7`); the literal `"0"`
alone records nothing and yields `Int 0`. -/
theorem c4_amended_leading_zero_is_error :
    Lex.consumeToken (Lex.Lexer.new "007")
        = .tok ⟨0, .Int 7⟩ ⟨"007".toList, 3, [⟨0, "Number cannot start with 0"⟩]⟩
    ∧ Lex.consumeToken (Lex.Lexer.new "0")
        = .tok ⟨0, .Int 0⟩ ⟨"0".toList, 1, []⟩ := by decide

/-- Claim C5, counterexample: lexing `"="` produces no equality token at all —
the lexer records "Unexpected character after =" (at the offset just past the
`=`) and continues, reaching end of input with no token — refuting "a single
`=` is lexed as the equality operator without recording any diagnostic". -/
theorem c5_single_eq_counterexample :
    Lex.consumeToken (Lex.Lexer.new "=")
      = .eof ⟨"=".toList, 1, [⟨1, "Unexpected character after ="⟩]⟩ := by decide

/-- Claim C5 as amended: equality is spelled `==` (lexed as the `Eq` token with
no diagnostic); a lone `=` records the error "Unexpected character after ="
at the position after the `=` and produces no token. -/
theorem c5_amended_double_eq_is_equality :
    Lex.consumeToken (Lex.Lexer.new "==") = .tok ⟨0, .Eq⟩ ⟨"==".toList, 2, []⟩
    ∧ Lex.consumeToken (Lex.Lexer.new "=")
        = .eof ⟨"=".toList, 1, [⟨1, "Unexpected character after ="⟩]⟩ := by decide

/-- Claim C6, counterexample: lexing `"ABC"` yields an `Ident` token carrying
the original spelling `"ABC"`, not the lowercase `"abc"` the claim states —
only the keyword lookup uses `ident.to_lowercase()`; the fall-through arm is
`_ => Token::Ident(ident)` with the unfolded original. -/
theorem c6_case_fold_counterexample :
    (Lex.consumeToken (Lex.Lexer.new "ABC")).tokenOf = some (.Ident "ABC")
    ∧ (Lex.consumeToken (Lex.Lexer.new "ABC")).tokenOf ≠ some (.Ident "abc") := by decide

/-- Claim C6 as amended: for every alphabetic-start lexeme whose lowercase
folding is not a keyword, the lexer produces an `Ident` token whose payload is
the lexeme with its *original* case preserved (keyword recognition itself is
case-insensitive, but no folding is applied to the identifier payload at
recognition time). -/
theorem c6_amended_ident_keeps_original_case (l : Lex.Lexer) (c : Char)
    (hpk : l.peekChar = some c) (hal : c.isAlpha = true)
    (hkw : Lex.keywordOf (toLowercase (String.mk (Lex.munchWhile Char.isAlphanum l.input l.pos))) = none) :
    Lex.consumeToken l
      = .tok ⟨l.pos, .Ident (String.mk (Lex.munchWhile Char.isAlphanum l.input l.pos))⟩
        { l with pos := l.pos + (Lex.munchWhile Char.isAlphanum l.input l.pos).length } := by
  rw [Lex.consumeToken_eq, Lex.step_alpha hpk hal]
  simp [hkw]

/-- Witness for C6's amended theorem at the input `"ABC"`. -/
theorem c6_amended_ident_keeps_original_case_witness :
    Lex.consumeToken (Lex.Lexer.new "ABC")
      = .tok ⟨0, .Ident "ABC"⟩ ⟨"ABC".toList, 3, []⟩ :=
  (c6_amended_ident_keeps_original_case (Lex.Lexer.new "ABC") 'A'
    (by decide) (by decide) (by decide)).trans (by decide)

/-- Claim C10: a digit run whose value exceeds `i32::MAX` records
"Invalid number or out of range" at the run's starting offset, emits no token
for the run, and the lexer continues scanning from the character following the
run (the right-hand side is `consume_token` restarted past the digits, with
only diagnostics added — the possible "Unexpected character after number" and
"Number cannot start with 0" entries exactly as the code orders them). -/
theorem c10_out_of_range_numeral_dropped (l : Lex.Lexer) (c : Char)
    (hpk : l.peekChar = some c) (hd : Lex.rustIsNumeric c = true)
    (hov : Lex.I32_MAX < Lex.digitsToNat (Lex.munchWhile Lex.rustIsNumeric l.input l.pos)) :
    Lex.consumeToken l = Lex.consumeToken
      { input := l.input,
        pos := l.pos + (Lex.munchWhile Lex.rustIsNumeric l.input l.pos).length,
        errors := l.errors
          ++ (if Lex.afterNumAlpha l.input
                  (l.pos + (Lex.munchWhile Lex.rustIsNumeric l.input l.pos).length)
              then [⟨l.pos + (Lex.munchWhile Lex.rustIsNumeric l.input l.pos).length,
                      "Unexpected character after number"⟩] else [])
          ++ (if Lex.leadingZeroBad (Lex.munchWhile Lex.rustIsNumeric l.input l.pos)
              then [⟨l.pos, "Number cannot start with 0"⟩] else [])
          ++ [⟨l.pos, "Invalid number or out of range"⟩] } := by
  have hnp : Lex.parseI32 (Lex.munchWhile Lex.rustIsNumeric l.input l.pos) = none := by
    unfold Lex.parseI32
    rw [if_neg]
    omega
  have hs : Lex.step l = .inr
      { input := l.input,
        pos := l.pos + (Lex.munchWhile Lex.rustIsNumeric l.input l.pos).length,
        errors := l.errors
          ++ (if Lex.afterNumAlpha l.input
                  (l.pos + (Lex.munchWhile Lex.rustIsNumeric l.input l.pos).length)
              then [⟨l.pos + (Lex.munchWhile Lex.rustIsNumeric l.input l.pos).length,
                      "Unexpected character after number"⟩] else [])
          ++ (if Lex.leadingZeroBad (Lex.munchWhile Lex.rustIsNumeric l.input l.pos)
              then [⟨l.pos, "Number cannot start with 0"⟩] else [])
          ++ [⟨l.pos, "Invalid number or out of range"⟩] } := by
    unfold Lex.step
    rw [hpk]
    simp only [Lex.isDigit_not_ws hd, Bool.false_eq_true, if_false,
      Lex.isDigit_not_alpha hd, hd, if_true, hnp]
    by_cases h2 : Lex.afterNumAlpha l.input
        (l.pos + (Lex.munchWhile Lex.rustIsNumeric l.input l.pos).length) <;>
      by_cases h3 : Lex.leadingZeroBad (Lex.munchWhile Lex.rustIsNumeric l.input l.pos) <;>
      simp [h2, h3, Lex.Lexer.pushError, Lex.Lexer.pushErrorPos, List.append_assoc]
  rw [Lex.consumeToken_eq, hs]

/-- Witness for C10 at the input `"2147483648"` (`i32::MAX + 1`). -/
theorem c10_out_of_range_numeral_dropped_witness :
    Lex.consumeToken (Lex.Lexer.new "2147483648")
      = Lex.consumeToken ⟨"2147483648".toList, 10, [⟨0, "Invalid number or out of range"⟩]⟩ :=
  (c10_out_of_range_numeral_dropped (Lex.Lexer.new "2147483648") '2'
    (by decide) (by decide) (by decide)).trans (by decide)

namespace LP

theorem mem_getLast? {α : Type} {l : List α} {a : α} (h : l.getLast? = some a) : a ∈ l := by
  induction l with
  | nil => simp at h
  | cons b rest ih =>
    cases rest with
    | nil =>
      simp at h
      simp [h]
    | cons c rest' =>
      rw [List.getLast?_cons_cons] at h
      exact List.mem_cons_of_mem b (ih h)

theorem cons_getLast_some {l : List Nat} {x a : Nat} (h : l.getLast? = some a) :
    (x :: l).getLast? = some a := by
  cases l with
  | nil => simp at h
  | cons b rest => rw [List.getLast?_cons_cons]; exact h

theorem newlineIdxs_bounds : ∀ (l : List Char) (i x : Nat),
    x ∈ newlineIdxs l i → i < x ∧ x ≤ i + l.length := by
  intro l
  induction l with
  | nil => intro i x h; simp [newlineIdxs] at h
  | cons c rest ih =>
    intro i x h
    rw [newlineIdxs] at h
    by_cases hc : c = '\n'
    · simp only [hc, if_true, List.mem_cons] at h
      rcases h with h | h
      · subst h
        simp only [List.length_cons]
        omega
      · have := ih (i + 1) x h
        simp only [List.length_cons]
        omega
    · simp only [hc, if_false] at h
      have := ih (i + 1) x h
      simp only [List.length_cons]
      omega

theorem newlineIdxs_pairwise : ∀ (l : List Char) (i : Nat),
    (newlineIdxs l i).Pairwise (· < ·) := by
  intro l
  induction l with
  | nil => intro i; simp [newlineIdxs]
  | cons c rest ih =>
    intro i
    rw [newlineIdxs]
    by_cases hc : c = '\n'
    · simp only [hc, if_true]
      rw [List.pairwise_cons]
      exact ⟨fun y hy => (newlineIdxs_bounds rest (i + 1) y hy).1, ih (i + 1)⟩
    · simp only [hc, if_false]
      exact ih (i + 1)

theorem newlineIdxs_getLast : ∀ (l : List Char), l.getLast? = some '\n' →
    ∀ i : Nat, (newlineIdxs l i).getLast? = some (i + l.length) := by
  intro l
  induction l with
  | nil => intro h; simp at h
  | cons c rest ih =>
    intro h i
    cases rest with
    | nil =>
      have hc : c = '\n' := by simpa using h
      subst hc
      simp [newlineIdxs]
    | cons d rest' =>
      rw [List.getLast?_cons_cons] at h
      have ihh := ih h (i + 1)
      rw [newlineIdxs]
      by_cases hc : c = '\n'
      · simp only [hc, if_true]
        rw [cons_getLast_some ihh]
        simp only [List.length_cons, Option.some.injEq]
        omega
      · simp only [hc, if_false]
        rw [ihh]
        simp only [List.length_cons, Option.some.injEq]
        omega

theorem filter_lt_getLast : ∀ (l : List Nat) (L : Nat), l.Pairwise (· < ·) →
    l.getLast? = some L → l.filter (fun s => decide (s < L)) = l.dropLast := by
  intro l
  induction l with
  | nil => intro L _ h2; simp at h2
  | cons a rest ih =>
    intro L h1 h2
    cases rest with
    | nil =>
      have ha : a = L := by simpa using h2
      subst ha
      simp
    | cons b rest' =>
      rw [List.getLast?_cons_cons] at h2
      rw [List.pairwise_cons] at h1
      have haL : a < L := h1.1 L (mem_getLast? h2)
      simp [List.filter_cons, List.dropLast_cons₂, haL, ih L h1.2 h2]

theorem filter_lt_get : ∀ (l : List Nat) (i x : Nat), l.Pairwise (· < ·) →
    l.get? i = some x → l.filter (fun s => decide (s < x)) = l.take i := by
  intro l
  induction l with
  | nil => intro i x _ h2; simp at h2
  | cons a rest ih =>
    intro i x h1 h2
    rw [List.pairwise_cons] at h1
    cases i with
    | zero =>
      have ha : a = x := by simpa using h2
      subst ha
      rw [List.take_zero, List.filter_eq_nil_iff]
      intro y hy
      rcases List.mem_cons.mp hy with h | h
      · subst h
        simp
      · have := h1.1 y h
        simp
        omega
    | succ i' =>
      have h2' : rest.get? i' = some x := by simpa using h2
      have hax : a < x := h1.1 x (List.get?_mem h2')
      simp [List.filter_cons, List.take_succ_cons, hax, ih i' x h1.2 h2']

theorem getD_last : ∀ (l : List Nat) (a : Nat), l.getLast? = some a →
    l.getD (l.length - 1) 0 = a := by
  intro l
  induction l with
  | nil => intro a h; simp at h
  | cons b rest ih =>
    intro a h
    cases rest with
    | nil => simpa using h
    | cons c rest' =>
      rw [List.getLast?_cons_cons] at h
      have hlen : (b :: c :: rest').length - 1 = ((c :: rest').length - 1) + 1 := by
        simp
      rw [hlen, List.getD_cons_succ]
      exact ih a h

theorem LinePos_new_getLast (content : List Char) :
    (LinePos.new content).content.getLast? = some '\n' := by
  unfold LinePos.new
  by_cases h : content.getLast? = some '\n'
  · simp [h]
  · simp [h, List.getLast?_concat]

theorem LinePos_new_start (content : List Char) :
    (LinePos.new content).start_offset = 0 :: newlineIdxs (LinePos.new content).content 0 := rfl

theorem LinePos_new_sorted (content : List Char) :
    (LinePos.new content).start_offset.Pairwise (· < ·) := by
  rw [LinePos_new_start, List.pairwise_cons]
  exact ⟨fun y hy => (newlineIdxs_bounds _ 0 y hy).1,
    newlineIdxs_pairwise _ 0⟩

theorem LinePos_new_start_getLast (content : List Char) :
    (LinePos.new content).start_offset.getLast? = some (LinePos.new content).content.length := by
  rw [LinePos_new_start]
  have h := newlineIdxs_getLast _ (LinePos_new_getLast content) 0
  rw [Nat.zero_add] at h
  exact cons_getLast_some h

end LP

/-- Claim C9: (a) for every offset at or beyond the end of the normalized text,
`line_col` returns `(start_offset.len(), 1)` — the final recorded line start
(the line beginning at end of text) with column 1, a clamp rather than a
failure; (b) for an offset exactly equal to the line start recorded at index
`i`, it returns `(i + 1, 1)` — column 1 of the following line (the 1-based
line that starts there), never a position on the previous line. -/
theorem c9_line_col_clamp_and_line_start :
    (∀ (content : List Char) (offset : Nat),
        (LP.LinePos.new content).content.length ≤ offset →
        (LP.LinePos.new content).lineCol offset
          = ((LP.LinePos.new content).start_offset.length, 1))
    ∧ (∀ (content : List Char) (i offset : Nat),
        (LP.LinePos.new content).start_offset.get? i = some offset →
        (LP.LinePos.new content).lineCol offset = (i + 1, 1)) := by
  constructor
  · intro content offset hoff
    rcases Nat.lt_or_ge (LP.LinePos.new content).content.length offset with hgt | hle
    · unfold LP.LinePos.lineCol
      rw [if_pos hgt]
    · have heq : offset = (LP.LinePos.new content).content.length := by omega
      subst heq
      have hSl := LP.LinePos_new_start_getLast content
      have hsorted := LP.LinePos_new_sorted content
      have hmem := LP.mem_getLast? hSl
      have hlenpos : 0 < (LP.LinePos.new content).start_offset.length := by
        rw [LP.LinePos_new_start]
        simp
      unfold LP.LinePos.lineCol
      rw [if_neg (by omega)]
      simp only [hmem, if_true, LP.countLt]
      rw [LP.filter_lt_getLast _ _ hsorted hSl, List.length_dropLast]
      have hgd : (LP.LinePos.new content).start_offset.getD
          ((LP.LinePos.new content).start_offset.length - 1) 0
          = (LP.LinePos.new content).content.length := LP.getD_last _ _ hSl
      rw [Prod.mk.injEq]
      constructor
      · omega
      · rw [Nat.sub_add_cancel (by omega), hgd]
        omega
  · intro content i offset hg
    have hsorted := LP.LinePos_new_sorted content
    have hmem := List.get?_mem hg
    have hi : i < (LP.LinePos.new content).start_offset.length :=
      (List.get?_eq_some.mp hg).1
    have hoffle : offset ≤ (LP.LinePos.new content).content.length := by
      rw [LP.LinePos_new_start] at hmem
      rcases List.mem_cons.mp hmem with h | h
      · omega
      · have := LP.newlineIdxs_bounds _ 0 offset h
        omega
    unfold LP.LinePos.lineCol
    rw [if_neg (by omega)]
    simp only [hmem, if_true, LP.countLt]
    rw [LP.filter_lt_get _ _ _ hsorted hg, List.length_take]
    have hmin : i ⊓ (LP.LinePos.new content).start_offset.length = i := by
      omega
    rw [hmin, Prod.mk.injEq]
    constructor
    · rfl
    · rw [Nat.add_sub_cancel]
      rw [List.getD_eq_get?, hg]
      simp

/-- Witness for C9 on the text `"ab\ncd"` (normalized to `"ab\ncd\n"`, line
starts `[0, 3, 6]`): offset 7 is past the end and clamps to `(3, 1)`; offset 3
is the recorded line start at index 1 and yields `(2, 1)`. -/
theorem c9_line_col_clamp_and_line_start_witness :
    (LP.LinePos.new "ab\ncd".toList).lineCol 7 = (3, 1)
    ∧ (LP.LinePos.new "ab\ncd".toList).lineCol 3 = (2, 1) :=
  ⟨(c9_line_col_clamp_and_line_start.1 "ab\ncd".toList 7 (by decide)).trans (by decide),
   (c9_line_col_clamp_and_line_start.2 "ab\ncd".toList 1 3 (by decide)).trans (by decide)⟩

/-- Claim C1, counterexample: running the checker on the token stream of
`begin begin end` (one unmatched `begin`) records no diagnostic at all — the
final recorder equals the empty initial recorder — refuting the claimed
"missing end" diagnostic.  `program_block` keeps no nesting counter: its loop
merely consumes every token, checking only identifiers. -/
theorem c1_begin_begin_end_counterexample :
    PG.code ⟨[⟨0, .Begin, "begin"⟩, ⟨6, .Begin, "begin"⟩, ⟨12, .End, "end"⟩], 0⟩
        PG.ErrorRecorder.new
      = some (.ok (), ⟨[⟨0, .Begin, "begin"⟩, ⟨6, .Begin, "begin"⟩, ⟨12, .End, "end"⟩], 3⟩,
          PG.ErrorRecorder.new) := rfl

/-- Claim C1 as amended: the body phase maintains no nesting counter and emits
no nesting diagnostics: both `begin begin end` (one unmatched open) and
`begin end end` (one extra close) are accepted with no diagnostic recorded;
the token stream is merely consumed to its end. -/
theorem c1_amended_no_nesting_diagnostics :
    PG.code ⟨[⟨0, .Begin, "begin"⟩, ⟨6, .Begin, "begin"⟩, ⟨12, .End, "end"⟩], 0⟩
        PG.ErrorRecorder.new
      = some (.ok (), ⟨[⟨0, .Begin, "begin"⟩, ⟨6, .Begin, "begin"⟩, ⟨12, .End, "end"⟩], 3⟩,
          PG.ErrorRecorder.new)
    ∧ PG.code ⟨[⟨0, .Begin, "begin"⟩, ⟨6, .End, "end"⟩, ⟨10, .End, "end"⟩], 0⟩
        PG.ErrorRecorder.new
      = some (.ok (), ⟨[⟨0, .Begin, "begin"⟩, ⟨6, .End, "end"⟩, ⟨10, .End, "end"⟩], 3⟩,
          PG.ErrorRecorder.new) := ⟨rfl, rfl⟩

/-- Claim C2, counterexample: when the first token is neither `var` nor `begin`
(here a `;` at offset 0, followed by a well-formed `begin end` body), the
checker records "Expected var" and *aborts*: `code` returns `Err`, the body
phase never runs, and the stream index is still 0 — scanning did not continue
to end of input, refuting "records a diagnostic and continues scanning". -/
theorem c2_expected_var_aborts_counterexample :
    PG.code ⟨[⟨0, .SemiColon, ";"⟩, ⟨2, .Begin, "begin"⟩, ⟨8, .End, "end"⟩], 0⟩
        PG.ErrorRecorder.new
      = some (.error "Expected var",
          ⟨[⟨0, .SemiColon, ";"⟩, ⟨2, .Begin, "begin"⟩, ⟨8, .End, "end"⟩], 0⟩,
          ⟨[⟨0, "Expected var"⟩], []⟩) := rfl

/-- Claim C2 as amended: problems raised through `ErrorRecorder::hard` are
fatal to the structural scan.  Whenever the first token is neither `var` nor
`begin` (end of stream included), the checker records exactly one "Expected
var" error at that position and `code` returns `Err` immediately, with the
stream untouched — neither the declaration loop nor the body phase runs. -/
theorem c2_amended_hard_error_aborts (ts : PG.TokenStream) (r : PG.ErrorRecorder)
    (h1 : ts.peek ≠ some .Var) (h2 : ts.peek ≠ some .Begin) :
    PG.code ts r = some (.error "Expected var", ts, r.error ts.peekPos "Expected var") := by
  rcases hpk : ts.peek with _ | tk
  · simp [PG.code, PG.varBlock, hpk]
  · rw [hpk] at h1 h2
    cases tk <;> simp_all [PG.code, PG.varBlock, hpk]

/-- Witness for C2's amended theorem: first token `;`. -/
theorem c2_amended_hard_error_aborts_witness :
    PG.code ⟨[⟨0, .SemiColon, ";"⟩], 0⟩ PG.ErrorRecorder.new
      = some (.error "Expected var", ⟨[⟨0, .SemiColon, ";"⟩], 0⟩,
          ⟨[⟨0, "Expected var"⟩], []⟩) :=
  (c2_amended_hard_error_aborts ⟨[⟨0, .SemiColon, ";"⟩], 0⟩ PG.ErrorRecorder.new
    (by decide) (by decide)).trans rfl

/-- Claim C8: declaring the same identifier twice yields exactly one
"Duplicate identifier" diagnostic at the offset of the second occurrence, and
the map keeps the type of the first occurrence.  Part one runs `var_block` on
the token stream of the spec's example `var a: integer; a: bool;`: the single
recorded error is at offset 16 (the second `a`) and the map still binds `a` to
`Integer`.  Part two is the general re-declaration step from `def_line`'s
insertion loop: an already-declared identifier records exactly the one
"Duplicate identifier" error at its own offset and leaves the map unchanged
(first-seen type retained), for every map, recorder, offset and line type. -/
theorem c8_duplicate_identifier_once_first_type_kept :
    (PG.varBlock
        ⟨[⟨0, .Var, "var"⟩, ⟨4, .Identifier, "a"⟩, ⟨5, .Colon, ":"⟩, ⟨7, .Integer, "integer"⟩,
          ⟨14, .SemiColon, ";"⟩, ⟨16, .Identifier, "a"⟩, ⟨17, .Colon, ":"⟩, ⟨19, .Bool, "bool"⟩,
          ⟨23, .SemiColon, ";"⟩], 0⟩ PG.ErrorRecorder.new
      = some (.ok [("a", .Integer)],
          ⟨[⟨0, .Var, "var"⟩, ⟨4, .Identifier, "a"⟩, ⟨5, .Colon, ":"⟩, ⟨7, .Integer, "integer"⟩,
            ⟨14, .SemiColon, ";"⟩, ⟨16, .Identifier, "a"⟩, ⟨17, .Colon, ":"⟩, ⟨19, .Bool, "bool"⟩,
            ⟨23, .SemiColon, ";"⟩], 9⟩,
          ⟨[⟨16, "Duplicate identifier: a"⟩], []⟩))
    ∧ (∀ (id : String) (off : Nat) (ty : PG.TypeEnum) (vars : PG.VarsMap)
        (r : PG.ErrorRecorder),
        PG.containsKey vars id = true →
        PG.insertVars [(id, off)] ty vars r
          = (vars, r.error off ("Duplicate identifier: " ++ id))) := by
  constructor
  · rfl
  · intro id off ty vars r h
    simp [PG.insertVars, h]

/-- Witness for C8: the second declaration of `a` (offset 16, line type
`bool`) against a map already binding `a` to `Integer`. -/
theorem c8_duplicate_identifier_once_first_type_kept_witness :
    PG.insertVars [("a", 16)] .Bool [("a", .Integer)] PG.ErrorRecorder.new
      = ([("a", PG.TypeEnum.Integer)], ⟨[⟨16, "Duplicate identifier: a"⟩], []⟩) :=
  (c8_duplicate_identifier_once_first_type_kept.2 "a" 16 .Bool [("a", .Integer)]
    PG.ErrorRecorder.new (by decide)).trans rfl
